import Mathlib

/-!
Verification of the FAQ knowledge-base retrieval engine of the chatbot
repository.  The engine exists in two near-duplicate variants:

* the English variant (`src/services/knowledgeService-en.js`, class
  `KnowledgeServiceEn`), embedded below with an `En` suffix, and
* the Chinese/CJK variant (`src/services/gptService.js`, class
  `KnowledgeService`), embedded below with a `Zh` suffix.

Text is modelled as `List Char` (`Str`); JavaScript `Map`s are modelled as
insertion-ordered association lists, which is exactly the observable
behaviour of a JS `Map` (`set` on a present key updates in place, on an
absent key appends at the end; iteration follows insertion order).
JS `Array.prototype.sort` is stable (ES2019); for a consistent comparator
every stable sort by the comparator's total preorder produces the same
list, so it is modelled by `List.insertionSort` (also stable, and
kernel-computable) with the ordering induced by the source's comparator.
-/

/-- Strings are lists of characters. -/
abbrev Str := List Char

/-- JS `String.prototype.toLowerCase`, restricted to the ASCII case mapping
(the engine only ever lowercases ASCII letters; CJK text has no case). -/
def lowerStr (s : Str) : Str := s.map Char.toLower

/-- JS `String.prototype.trim`: drop leading and trailing whitespace. -/
def trimStr (s : Str) : Str :=
  ((s.dropWhile Char.isWhitespace).reverse.dropWhile Char.isWhitespace).reverse

/-- Maximal runs of characters satisfying `p` (the splitter shared by both
tokenizers: replacing every separator character by a space, collapsing
whitespace, trimming and splitting on spaces while dropping empty pieces is
exactly taking the maximal runs of non-separator characters, in order). -/
def splitRunsAux (p : Char → Bool) : Str → Str → List Str
  | [], acc => if acc.isEmpty then [] else [acc.reverse]
  | c :: cs, acc =>
    if p c then splitRunsAux p cs (c :: acc)
    else if acc.isEmpty then splitRunsAux p cs []
    else acc.reverse :: splitRunsAux p cs []

def splitRuns (p : Char → Bool) (s : Str) : List Str := splitRunsAux p s []

/-- JS `String.prototype.includes hay.includes(needle)`: substring test,
written recursively on the haystack. -/
def strIncludes (hay needle : Str) : Bool :=
  match hay with
  | [] => needle.isEmpty
  | _ :: t => needle.isPrefixOf hay || strIncludes t needle

/-- The JS regex class `\w` = `[A-Za-z0-9_]` (ASCII, no `u` flag). -/
def isWordChar (c : Char) : Bool := c.isAlphanum || c = '_'

/-- Characters kept by the CJK tokenizer's regex
`[^一-龥a-zA-Z0-9\s]` replacement: CJK ideographs and ASCII
alphanumerics survive; everything else (including original whitespace)
acts as a separator for the subsequent `split(/\s+/)`. -/
def isZhTokenChar (c : Char) : Bool :=
  (0x4e00 ≤ c.toNat && c.toNat ≤ 0x9fa5) || c.isAlphanum

/-- First-occurrence deduplication, the observable behaviour of JS
`[...new Set(xs)]`, written with an accumulator of already-seen elements. -/
def dedupFirstAux [DecidableEq α] (seen : List α) : List α → List α
  | [] => []
  | a :: as => if a ∈ seen then dedupFirstAux seen as else a :: dedupFirstAux (a :: seen) as

def dedupFirst [DecidableEq α] (l : List α) : List α := dedupFirstAux [] l

/-- The contiguous substrings of lengths 3 to 6 that `tokenize` (EN variant)
emits for a word longer than 4 characters: for `i` from `0` to `length-3`
and `j` from `3` to `min 6 (length - i)`, the slice `word.substring(i, i+j)`
(kept only if its length is at least 3, as in the source, though the guard
is always true). -/
def subsOf (w : Str) : List Str :=
  (List.range (w.length - 2)).flatMap (fun i =>
    (List.range' 3 (min 6 (w.length - i) - 2)).filterMap (fun j =>
      let s := (w.drop i).take j
      if 3 ≤ s.length then some s else none))

/-- The whitespace/punctuation-split words of the EN tokenizer
(`text.toLowerCase().replace(/[^\w\s]/g,' ').replace(/\s+/g,' ').trim().split(' ')`
with empty pieces dropped): the maximal runs of `\w` characters of the
lowercased text. -/
def enWords (text : Str) : List Str := splitRuns isWordChar (lowerStr text)

/-- `KnowledgeServiceEn.tokenize`: every word of length at least 2 is kept,
words longer than 4 characters additionally contribute their length-3..6
substrings, and the result is deduplicated as a set. -/
def tokenizeEn (text : Str) : List Str :=
  dedupFirst ((enWords text).flatMap (fun w =>
    if 2 ≤ w.length then w :: (if 4 < w.length then subsOf w else []) else []))

/-- `KnowledgeService.tokenize` (CJK variant):
lowercase, replace `[^一-龥a-zA-Z0-9\s]` by spaces, split on
whitespace, keep pieces of length greater than 1, trim each piece.
No deduplication is performed. -/
def tokenizeZh (text : Str) : List Str :=
  (((splitRuns isZhTokenChar (lowerStr text)).filter (fun w => 1 < w.length)).map trimStr)

/-- An FAQ entry, shaped as in the knowledge-base JSON (§3 of the spec). -/
structure FAQEntry where
  id : Str
  question : Str
  answer : Str
  keywords : List Str
  category : Str
  priority : Int
deriving DecidableEq

/-- A quick-reply record. -/
structure QuickReply where
  id : Str
  title : Str
  payload : Str
  category : Str
deriving DecidableEq

/-- A category record. -/
structure Category where
  id : Str
  label : Str
deriving DecidableEq

/-- The loaded knowledge base aggregate (`faqData`). -/
structure KnowledgeBase where
  faq : List FAQEntry
  categories : List Category
  quickReplies : List QuickReply
deriving DecidableEq

/-- The knowledge base the load failure path installs:
`{ faq: [], categories: [], quickReplies: [] }`. -/
def emptyKB : KnowledgeBase := { faq := [], categories := [], quickReplies := [] }

/-- The entry whose fields a JS spread of `undefined` would leave absent;
used to model `{...this.faqData.faq[index], ...}` when `index` is out of
range (which only happens in the degraded state after a failed reload). -/
def emptyEntry : FAQEntry :=
  { id := [], question := [], answer := [], keywords := [], category := [], priority := 0 }

/-- Association-list lookup (JS `Map.prototype.get`, `none` = key absent). -/
def alistGet? [DecidableEq κ] (m : List (κ × β)) (k : κ) : Option β :=
  match m with
  | [] => none
  | (k', v) :: rest => if k' = k then some v else alistGet? rest k

/-- Association-list update (JS `Map.prototype.set`): update the first
binding in place, or append a new binding at the end. -/
def alistSet [DecidableEq κ] (m : List (κ × β)) (k : κ) (v : β) : List (κ × β) :=
  match m with
  | [] => [(k, v)]
  | (k', v') :: rest => if k' = k then (k, v) :: rest else (k', v') :: alistSet rest k v

/-- One posting of the English inverted index: the pushed object
`{ ...item, index }` (a snapshot of the entry plus its position). -/
structure PostingEn where
  item : FAQEntry
  idx : Nat
deriving DecidableEq

/-- The English inverted index `faqIndex : Map<string, posting[]>`. -/
abbrev IdxEn := List (Str × List PostingEn)

/-- `if (!faqIndex.has(k)) faqIndex.set(k, []); faqIndex.get(k).push(p)`. -/
def idxPush (m : IdxEn) (k : Str) (p : PostingEn) : IdxEn :=
  alistSet m k ((alistGet? m k).getD [] ++ [p])

/-- The posting list stored for a token (`[]` when the key is absent;
the builder only ever creates a key to immediately push onto it, so a
present key always has a non-empty list). -/
def enLookup (m : IdxEn) (k : Str) : List PostingEn := (alistGet? m k).getD []

/-- Keyword normalisation used by the index builder:
`keyword.toLowerCase().trim()`. -/
def normKw (k : Str) : Str := trimStr (lowerStr k)

/-- The body of `buildFAQIndex`'s `forEach` with its running position:
for each entry, push a posting under each normalised keyword, then under
each question token of length at least 2. -/
def buildIdxEnAux : Nat → List FAQEntry → IdxEn → IdxEn
  | _, [], m => m
  | i, item :: rest, m =>
    let m1 := item.keywords.foldl (fun m kw => idxPush m (normKw kw) ⟨item, i⟩) m
    let m2 := (tokenizeEn item.question).foldl
      (fun m tok => if 2 ≤ tok.length then idxPush m tok ⟨item, i⟩ else m) m1
    buildIdxEnAux (i + 1) rest m2

/-- `KnowledgeServiceEn.buildFAQIndex`: clear the index and re-populate it
from the FAQ list (the `clear()` is the empty starting map). -/
def buildFAQIndexEn (faq : List FAQEntry) : IdxEn := buildIdxEnAux 0 faq []

/-- The mutable score accumulator `scoreMap : Map<number, number>`. -/
abbrev ScoreMap := List (Nat × Nat)

/-- `scoreMap.get(i) || 0`. -/
def smGet (sm : ScoreMap) (i : Nat) : Nat := (alistGet? sm i).getD 0

/-- `scoreMap.set(i, v)`. -/
def smSet (sm : ScoreMap) (i : Nat) (v : Nat) : ScoreMap := alistSet sm i v

/-- The per-token score of `searchFAQ` (EN): `let tokenScore = 1;` then
`tokenScore = 3` when some keyword's lowercase form contains the token as a
substring, then `tokenScore += 1` when the token has length at least 4. -/
def enTokenScore (tok : Str) (item : FAQEntry) : Nat :=
  (if item.keywords.any (fun k => strIncludes (lowerStr k) tok) then 3 else 1) +
    (if 4 ≤ tok.length then 1 else 0)

/-- The scoring loop of `searchFAQ` (EN): for each query token that the
index has, for each posting of that token, add `enTokenScore` to the
posting's entry index in the score map. -/
def scoreTokens (idx : IdxEn) (toks : List Str) : ScoreMap :=
  toks.foldl (fun sm tok =>
    match alistGet? idx tok with
    | some ps =>
      ps.foldl (fun sm p => smSet sm p.idx (smGet sm p.idx + enTokenScore tok p.item)) sm
    | none => sm) []

/-- A search result (EN): `{ ...this.faqData.faq[index], score, index }`.
When `index` is out of range of the current FAQ list (degraded state after
a failed reload) the JS spread of `undefined` yields an object with only
`score` and `index`; that degenerate record is modelled by `emptyEntry`. -/
structure ResultEn where
  item : FAQEntry
  score : Nat
  idx : Nat
deriving DecidableEq

/-- The sort comparator of `searchFAQ` (EN):
`if (b.score !== a.score) return b.score - a.score; return a.priority - b.priority;`
as the "comparator result is non-positive" relation of a stable sort. -/
def enLe (a b : ResultEn) : Prop :=
  b.score < a.score ∨ (a.score = b.score ∧ a.item.priority ≤ b.item.priority)

instance : DecidableRel enLe := fun a b => by unfold enLe; infer_instance

instance : IsTotal ResultEn enLe := by
  constructor
  intro a b
  unfold enLe
  rcases Nat.lt_trichotomy a.score b.score with h | h | h
  · exact Or.inr (Or.inl h)
  · rcases Int.le_total a.item.priority b.item.priority with hp | hp
    · exact Or.inl (Or.inr ⟨h, hp⟩)
    · exact Or.inr (Or.inr ⟨h.symm, hp⟩)
  · exact Or.inl (Or.inl h)

instance : IsTrans ResultEn enLe := by
  constructor
  intro a b c hab hbc
  unfold enLe at *
  rcases hab with h1 | ⟨h1, p1⟩ <;> rcases hbc with h2 | ⟨h2, p2⟩
  · exact Or.inl (Nat.lt_trans h2 h1)
  · exact Or.inl (h2 ▸ h1)
  · exact Or.inl (h1 ▸ h2)
  · exact Or.inr ⟨h1.trans h2, p1.trans p2⟩

/-- The state owned by `KnowledgeServiceEn`: the loaded data and the index. -/
structure StateEn where
  faqData : KnowledgeBase
  faqIndex : IdxEn
deriving DecidableEq

/-- `KnowledgeServiceEn.searchFAQ(query, limit = 10)`: guard on an empty
query (the `!query` check; the companion `!this.faqData.faq` check can
never fire in this model, where `faq` is always an array), tokenize, score
through the index, materialise the score map in insertion order, sort with
the stable comparator and truncate. -/
def searchFAQEn (s : StateEn) (q : Str) (limit : Nat := 10) : List ResultEn :=
  if q = [] then []
  else
    let sm := scoreTokens s.faqIndex (tokenizeEn q)
    (List.insertionSort enLe (sm.map (fun iv =>
      ({ item := s.faqData.faq.getD iv.1 emptyEntry, score := iv.2, idx := iv.1 } : ResultEn)))).take
        limit

/-- `KnowledgeServiceEn.getQuickReplies(category = null)`: the empty string
models a falsy (`null`/`undefined`/empty) category, for which the whole
quick-reply list is returned unfiltered. -/
def getQuickRepliesEn (kb : KnowledgeBase) (category : Str) : List QuickReply :=
  if category = [] then kb.quickReplies
  else kb.quickReplies.filter (fun r => r.category = category)

/-- `KnowledgeServiceEn.getDefaultQuickReplies`: the unfiltered list capped
at 4. -/
def getDefaultQuickRepliesEn (kb : KnowledgeBase) : List QuickReply :=
  (getQuickRepliesEn kb []).take 4

/-- The two return shapes of `getSmartAnswer` (EN): `{found: true, answer,
question, category, confidence, suggestions}` and `{found: false, answer:
null, suggestions}`. -/
inductive SmartAnswerEn where
  | found (answer question category : Str) (confidence : Nat) (suggestions : List QuickReply)
  | notFound (suggestions : List QuickReply)
deriving DecidableEq

/-- The `found` tag of the returned object. -/
def SmartAnswerEn.isFound : SmartAnswerEn → Bool
  | .found .. => true
  | .notFound _ => false

/-- `KnowledgeServiceEn.getSmartAnswer(query, threshold = 3)`. -/
def getSmartAnswerEn (s : StateEn) (q : Str) (threshold : Nat := 3) : SmartAnswerEn :=
  match searchFAQEn s q 3 with
  | best :: _ =>
    if threshold ≤ best.score then
      .found best.item.answer best.item.question best.item.category best.score
        ((getQuickRepliesEn s.faqData best.item.category).take 3)
    else .notFound (getDefaultQuickRepliesEn s.faqData)
  | [] => .notFound (getDefaultQuickRepliesEn s.faqData)

/-- `KnowledgeServiceEn.loadKnowledgeBase`, with the fallible
`readFileSync`/`JSON.parse` step abstracted as an optional parsed document:
on success the data is replaced and the index rebuilt; on failure
(`catch`) only `faqData` is reset to the empty knowledge base — the index
is left untouched. -/
def loadKnowledgeBaseEn (s : StateEn) (raw : Option KnowledgeBase) : StateEn :=
  match raw with
  | some kb => { faqData := kb, faqIndex := buildFAQIndexEn kb.faq }
  | none => { s with faqData := emptyKB }

/-- `KnowledgeServiceEn.reload`: just calls `loadKnowledgeBase` again. -/
def reloadEn (s : StateEn) (raw : Option KnowledgeBase) : StateEn :=
  loadKnowledgeBaseEn s raw

/-- The constructor: fresh empty index, then an initial load. -/
def initServiceEn (raw : Option KnowledgeBase) : StateEn :=
  loadKnowledgeBaseEn { faqData := emptyKB, faqIndex := [] } raw

/-- The CJK search index `searchIndex : Map<string, Set<string>>`, a map
from token to the insertion-ordered set of FAQ ids. -/
abbrev IdxZh := List (Str × List Str)

/-- The id set stored for a token (`[]` when the key is absent). -/
def zhLookup (m : IdxZh) (k : Str) : List Str := (alistGet? m k).getD []

/-- `if (!searchIndex.has(k)) searchIndex.set(k, new Set());
searchIndex.get(k).add(id)` — a `Set` ignores re-insertion of a present
element and otherwise appends. -/
def zIdxAdd (m : IdxZh) (k : Str) (id : Str) : IdxZh :=
  let cur := (alistGet? m k).getD []
  alistSet m k (if id ∈ cur then cur else cur ++ [id])

/-- `KnowledgeService.addToIndex(text, id)`: tokenize the text and add the
id under every resulting token. -/
def addToIndexZh (m : IdxZh) (text : Str) (id : Str) : IdxZh :=
  (tokenizeZh text).foldl (fun m kw => zIdxAdd m kw id) m

/-- The static allow-list of `KnowledgeService.extractKeywords`. -/
def medicalTerms : List Str :=
  ["预约".toList, "挂号".toList, "就诊".toList, "医生".toList, "检查".toList,
   "治疗".toList, "药物".toList, "费用".toList, "医保".toList, "体检".toList,
   "急诊".toList, "门诊".toList, "住院".toList, "手术".toList, "康复".toList]

/-- `KnowledgeService.extractKeywords(text)`: the allow-list terms contained
in the text, in allow-list order. -/
def extractKeywordsZh (text : Str) : List Str :=
  medicalTerms.filter (fun term => strIncludes text term)

/-- `KnowledgeService.buildSearchIndex`: for each entry, index the question,
then each keyword, then the extracted answer keywords — each of the three
going through `addToIndex`, and hence through the tokenizer. -/
def buildSearchIndexZh (faq : List FAQEntry) : IdxZh :=
  faq.foldl (fun m item =>
    let m1 := addToIndexZh m item.question item.id
    let m2 := item.keywords.foldl (fun m kw => addToIndexZh m kw item.id) m1
    (extractKeywordsZh item.answer).foldl (fun m kw => addToIndexZh m kw item.id) m2) []

/-- The per-entry score loop of `searchFAQ` (CJK): `let score = 0`, a +10
exact bonus when the lowercased question contains the lowercased query,
then for each query token +5 when the index maps the token to a set
containing the entry's id, +3 when the lowercased question contains the
token, +1 when the lowercased answer contains the token. -/
def scoreItemZh (idx : IdxZh) (q : Str) (qToks : List Str) (item : FAQEntry) : Nat :=
  let base : Nat := if strIncludes (lowerStr item.question) (lowerStr q) then 10 else 0
  qToks.foldl (fun score kw =>
    score +
      ((match alistGet? idx kw with
        | some ids => if item.id ∈ ids then 5 else 0
        | none => 0) +
       ((if strIncludes (lowerStr item.question) kw then 3 else 0) +
        (if strIncludes (lowerStr item.answer) kw then 1 else 0)))) base

/-- A CJK search result `{ ...item, score }` where
`item = faqData.faq.find(f => f.id === id)` (possibly `undefined`). -/
structure ResultZh where
  item : Option FAQEntry
  score : Nat
deriving DecidableEq

/-- Field access on a possibly-`undefined` spread result. -/
def ResultZh.category (r : ResultZh) : Str :=
  match r.item with
  | some e => e.category
  | none => []

/-- `item.question` rendered inside a template literal: an `undefined`
field prints as the text `undefined`. -/
def ResultZh.questionText (r : ResultZh) : Str :=
  match r.item with
  | some e => e.question
  | none => "undefined".toList

/-- The state owned by the CJK `KnowledgeService`. -/
structure StateZh where
  faqData : KnowledgeBase
  searchIndex : IdxZh
deriving DecidableEq

/-- The sort comparator of `searchFAQ` (CJK): `(a, b) => b[1] - a[1]`
(descending score only, no tie-break) as the "comparator result is
non-positive" relation of a stable sort. -/
def zhLe (a b : Str × Nat) : Prop := b.2 ≤ a.2

instance : DecidableRel zhLe := fun a b => by unfold zhLe; infer_instance

instance : IsTotal (Str × Nat) zhLe := ⟨fun a b => Nat.le_total b.2 a.2⟩

instance : IsTrans (Str × Nat) zhLe := ⟨fun _ _ _ hab hbc => Nat.le_trans hbc hab⟩

/-- `KnowledgeService.searchFAQ(query, limit = 5)`: guard on an empty query,
tokenize once, give every FAQ entry a score, keep the strictly positive
ones in a map keyed by id (FAQ order), stable-sort by descending score
only, truncate, and resolve each id back through `find`. -/
def searchFAQZh (s : StateZh) (q : Str) (limit : Nat := 5) : List ResultZh :=
  if q = [] then []
  else
    let qToks := tokenizeZh q
    let scores : List (Str × Nat) := s.faqData.faq.foldl (fun sc item =>
      let sc' := scoreItemZh s.searchIndex q qToks item
      if 0 < sc' then alistSet sc item.id sc' else sc) []
    (((List.insertionSort zhLe scores).take limit).map (fun kv =>
      ({ item := s.faqData.faq.find? (fun f => f.id = kv.1), score := kv.2 } : ResultZh)))

/-- `KnowledgeService.getQuickReplies(category = null)` (CJK variant);
the empty string models a falsy category. -/
def getQuickRepliesZh (kb : KnowledgeBase) (category : Str) : List QuickReply :=
  if category = [] then kb.quickReplies
  else kb.quickReplies.filter (fun r => r.category = category)

/-- `KnowledgeService.getRelatedSuggestions(category)`. -/
def getRelatedSuggestionsZh (kb : KnowledgeBase) (category : Str) : List QuickReply :=
  getQuickRepliesZh kb category

/-- The numbered disambiguation text of the sub-threshold branch:
`我找到了几个相关的问题，请选择最符合您需求的：\n\n` followed by
`${index + 1}. ${item.question}` joined by newlines. -/
def joinSep (sep : Str) : List Str → Str
  | [] => []
  | [x] => x
  | x :: xs => x ++ sep ++ joinSep sep xs

def renderOptionsZh (results : List ResultZh) : Str :=
  "我找到了几个相关的问题，请选择最符合您需求的：\n\n".toList ++
    joinSep "\n".toList (results.enum.map (fun ir =>
      (toString (ir.1 + 1)).toList ++ ". ".toList ++ ir.2.questionText))

/-- The three return shapes of `KnowledgeService.getSmartAnswer`:
`{found: false, answer: null, suggestions}`, the direct answer
`{found: true, answer, source, suggestions}`, and the disambiguation
`{found: true, answer: <numbered list>, options, suggestions}`. -/
inductive SmartAnswerZh where
  | notFound (suggestions : List QuickReply)
  | direct (answer : Option Str) (source : ResultZh) (suggestions : List QuickReply)
  | options (answer : Str) (options : List ResultZh) (suggestions : List QuickReply)
deriving DecidableEq

/-- Whether the decision is the direct-answer variant. -/
def SmartAnswerZh.isDirect : SmartAnswerZh → Bool
  | .direct .. => true
  | _ => false

/-- `KnowledgeService.getSmartAnswer(question)` — the threshold is the
hard-coded constant 8. -/
def getSmartAnswerZh (s : StateZh) (q : Str) : SmartAnswerZh :=
  match searchFAQZh s q 3 with
  | [] => .notFound (getQuickRepliesZh s.faqData [])
  | best :: rest =>
    if 8 ≤ best.score then
      .direct (best.item.map (fun e => e.answer)) best
        (getRelatedSuggestionsZh s.faqData best.category)
    else
      .options (renderOptionsZh (best :: rest)) (best :: rest) (getQuickRepliesZh s.faqData [])

/-! ### Map and deduplication lemmas -/

theorem alistGet?_set [DecidableEq κ] (m : List (κ × β)) (k k' : κ) (v : β) :
    alistGet? (alistSet m k v) k' = if k = k' then some v else alistGet? m k' := by
  induction m with
  | nil => by_cases h : k = k' <;> simp [alistSet, alistGet?, h]
  | cons kv rest ih =>
    obtain ⟨a, b⟩ := kv
    by_cases hak : a = k
    · subst hak
      by_cases hk : a = k' <;> simp [alistSet, alistGet?, hk]
    · by_cases hk : a = k'
      · subst hk
        have hka : k ≠ a := fun h => hak h.symm
        simp [alistSet, alistGet?, hak, hka]
      · simp [alistSet, alistGet?, hak, hk, ih]

theorem mem_dedupFirstAux [DecidableEq α] (l : List α) (seen : List α) (x : α) :
    x ∈ dedupFirstAux seen l ↔ x ∈ l ∧ x ∉ seen := by
  induction l generalizing seen with
  | nil => simp [dedupFirstAux]
  | cons a as ih =>
    by_cases h : a ∈ seen
    · simp only [dedupFirstAux, if_pos h, ih, List.mem_cons]
      constructor
      · exact fun ⟨hx, hs⟩ => ⟨Or.inr hx, hs⟩
      · rintro ⟨(rfl | hx), hs⟩
        · exact absurd h hs
        · exact ⟨hx, hs⟩
    · simp only [dedupFirstAux, if_neg h, List.mem_cons, ih]
      by_cases hxa : x = a
      · subst hxa; simp [h]
      · simp [hxa]

theorem mem_dedupFirst [DecidableEq α] (l : List α) (x : α) :
    x ∈ dedupFirst l ↔ x ∈ l := by
  unfold dedupFirst
  rw [mem_dedupFirstAux]
  simp

theorem nodup_dedupFirstAux [DecidableEq α] (l : List α) (seen : List α) :
    (dedupFirstAux seen l).Nodup := by
  induction l generalizing seen with
  | nil => simp [dedupFirstAux]
  | cons a as ih =>
    by_cases h : a ∈ seen
    · simpa [dedupFirstAux, h] using ih seen
    · simp only [dedupFirstAux, if_neg h, List.nodup_cons]
      refine ⟨?_, ih _⟩
      intro hmem
      rw [mem_dedupFirstAux] at hmem
      exact hmem.2 (List.mem_cons_self a seen)

theorem nodup_dedupFirst [DecidableEq α] (l : List α) : (dedupFirst l).Nodup :=
  nodup_dedupFirstAux l []

/-! ### Characterisation of the English inverted index -/

theorem enLookup_idxPush (m : IdxEn) (k k' : Str) (p : PostingEn) :
    enLookup (idxPush m k p) k' =
      if k = k' then enLookup m k' ++ [p] else enLookup m k' := by
  unfold enLookup idxPush
  rw [alistGet?_set]
  by_cases h : k = k' <;> simp [h]

/-- The postings a single entry at position `i` contributes for a token:
one per keyword whose normal form is the token, plus one if the token is a
question token of length at least 2. -/
def postingsOfEntry (i : Nat) (e : FAQEntry) (tok : Str) : List PostingEn :=
  ((e.keywords.filter (fun kw => normKw kw = tok)).map (fun _ => (⟨e, i⟩ : PostingEn))) ++
    (((tokenizeEn e.question).filter (fun t => 2 ≤ t.length ∧ t = tok)).map
      (fun _ => (⟨e, i⟩ : PostingEn)))

/-- The postings contributed for a token by the entries of `faq`, their
positions starting at `i`. -/
def postingsFrom (i : Nat) (faq : List FAQEntry) (tok : Str) : List PostingEn :=
  match faq with
  | [] => []
  | e :: rest => postingsOfEntry i e tok ++ postingsFrom (i + 1) rest tok

theorem enLookup_foldKw (kws : List Str) (p : PostingEn) (m : IdxEn) (tok : Str) :
    enLookup (kws.foldl (fun m kw => idxPush m (normKw kw) p) m) tok
      = enLookup m tok ++ (kws.filter (fun kw => normKw kw = tok)).map (fun _ => p) := by
  induction kws generalizing m with
  | nil => simp
  | cons kw rest ih =>
    simp only [List.foldl_cons, List.filter_cons]
    rw [ih, enLookup_idxPush]
    by_cases h : normKw kw = tok <;> simp [h]

theorem enLookup_foldQ (toks : List Str) (p : PostingEn) (m : IdxEn) (tok : Str) :
    enLookup (toks.foldl (fun m t => if 2 ≤ t.length then idxPush m t p else m) m) tok
      = enLookup m tok ++ (toks.filter (fun t => 2 ≤ t.length ∧ t = tok)).map (fun _ => p) := by
  induction toks generalizing m with
  | nil => simp
  | cons t rest ih =>
    simp only [List.foldl_cons, List.filter_cons]
    by_cases hl : 2 ≤ t.length
    · rw [if_pos hl, ih, enLookup_idxPush]
      by_cases ht : t = tok
      · subst ht; simp [hl]
      · simp [ht, hl]
    · rw [if_neg hl, ih]
      simp [hl]

theorem enLookup_buildAux (faq : List FAQEntry) (i : Nat) (m : IdxEn) (tok : Str) :
    enLookup (buildIdxEnAux i faq m) tok = enLookup m tok ++ postingsFrom i faq tok := by
  induction faq generalizing i m with
  | nil => simp [buildIdxEnAux, postingsFrom]
  | cons e rest ih =>
    simp only [buildIdxEnAux, postingsFrom]
    rw [ih, enLookup_foldQ, enLookup_foldKw, postingsOfEntry]
    simp [List.append_assoc]

theorem enLookup_build (faq : List FAQEntry) (tok : Str) :
    enLookup (buildFAQIndexEn faq) tok = postingsFrom 0 faq tok := by
  unfold buildFAQIndexEn
  rw [enLookup_buildAux]
  simp [enLookup, alistGet?]

theorem eq_of_mem_postingsOfEntry {i : Nat} {e : FAQEntry} {tok : Str} {p : PostingEn}
    (h : p ∈ postingsOfEntry i e tok) : p = ⟨e, i⟩ := by
  unfold postingsOfEntry at h
  rcases List.mem_append.1 h with h' | h' <;>
    · obtain ⟨_, _, rfl⟩ := List.mem_map.1 h'
      rfl

theorem le_idx_of_mem_postingsFrom {faq : List FAQEntry} {j : Nat} {tok : Str} {p : PostingEn}
    (h : p ∈ postingsFrom j faq tok) : j ≤ p.idx := by
  induction faq generalizing j with
  | nil => simp [postingsFrom] at h
  | cons e rest ih =>
    rcases List.mem_append.1 h with h' | h'
    · rw [eq_of_mem_postingsOfEntry h']
    · exact Nat.le_of_succ_le (ih h')

theorem postingsFrom_filter (faq : List FAQEntry) (tok : Str) (j i : Nat) (e : FAQEntry)
    (h : faq.get? i = some e) :
    (postingsFrom j faq tok).filter (fun p => p.idx = j + i) = postingsOfEntry (j + i) e tok := by
  induction faq generalizing j i with
  | nil => simp at h
  | cons e₀ rest ih =>
    cases i with
    | zero =>
      have he : e₀ = e := by
        rw [List.get?_eq_getElem?] at h
        simpa using h
      subst he
      rw [postingsFrom, List.filter_append]
      have h1 : (postingsOfEntry j e₀ tok).filter (fun p => p.idx = j + 0) =
          postingsOfEntry j e₀ tok := by
        apply List.filter_eq_self.2
        intro p hp
        rw [eq_of_mem_postingsOfEntry hp]
        simp
      have h2 : (postingsFrom (j + 1) rest tok).filter (fun p => p.idx = j + 0) = [] := by
        apply List.filter_eq_nil_iff.2
        intro p hp
        have := le_idx_of_mem_postingsFrom hp
        simp only [decide_eq_true_eq]
        omega
      rw [h1, h2, List.append_nil, Nat.add_zero]
    | succ i' =>
      have h' : rest.get? i' = some e := h
      rw [postingsFrom, List.filter_append]
      have h1 : (postingsOfEntry j e₀ tok).filter (fun p => p.idx = j + (i' + 1)) = [] := by
        apply List.filter_eq_nil_iff.2
        intro p hp
        rw [eq_of_mem_postingsOfEntry hp]
        simp only [decide_eq_true_eq]
        omega
      have h2 := ih (j + 1) i' h'
      have hadd : j + (i' + 1) = (j + 1) + i' := by omega
      rw [h1, List.nil_append, hadd, h2]

theorem postingsFrom_filter_zero (faq : List FAQEntry) (tok : Str) (i : Nat) (e : FAQEntry)
    (h : faq.get? i = some e) :
    (postingsFrom 0 faq tok).filter (fun p => p.idx = i) = postingsOfEntry i e tok := by
  have := postingsFrom_filter faq tok 0 i e h
  simpa using this

/-! ### Characterisation of the score map built by the English ranker -/

theorem smGet_smSet (sm : ScoreMap) (i j v : Nat) :
    smGet (smSet sm i v) j = if i = j then v else smGet sm j := by
  unfold smGet smSet
  rw [alistGet?_set]
  by_cases h : i = j <;> simp [h]

theorem smGet_foldPostings (ps : List PostingEn) (tok : Str) (sm : ScoreMap) (i : Nat) :
    smGet (ps.foldl (fun sm p => smSet sm p.idx (smGet sm p.idx + enTokenScore tok p.item)) sm) i
      = smGet sm i + ((ps.filter (fun p => p.idx = i)).map (fun p => enTokenScore tok p.item)).sum := by
  induction ps generalizing sm with
  | nil => simp
  | cons p rest ih =>
    simp only [List.foldl_cons, List.filter_cons]
    rw [ih]
    by_cases h : p.idx = i
    · rw [smGet_smSet]
      simp [h, Nat.add_assoc]
    · rw [smGet_smSet]
      simp [h]

theorem smGet_scoreTokens (idx : IdxEn) (toks : List Str) (i : Nat) :
    smGet (scoreTokens idx toks) i
      = (toks.map (fun tok =>
          (((enLookup idx tok).filter (fun p => p.idx = i)).map
            (fun p => enTokenScore tok p.item)).sum)).sum := by
  have key : ∀ sm : ScoreMap,
      smGet (toks.foldl (fun sm tok =>
        match alistGet? idx tok with
        | some ps =>
          ps.foldl (fun sm p => smSet sm p.idx (smGet sm p.idx + enTokenScore tok p.item)) sm
        | none => sm) sm) i
        = smGet sm i + (toks.map (fun tok =>
            (((enLookup idx tok).filter (fun p => p.idx = i)).map
              (fun p => enTokenScore tok p.item)).sum)).sum := by
    induction toks with
    | nil => simp
    | cons tok rest ih =>
      intro sm
      simp only [List.foldl_cons, List.map_cons, List.sum_cons]
      cases halist : alistGet? idx tok with
      | none =>
        rw [ih]
        simp [enLookup, halist]
      | some ps =>
        rw [ih, smGet_foldPostings]
        simp [enLookup, halist, Nat.add_assoc]
  have := key []
  unfold scoreTokens
  rw [this]
  simp [smGet, alistGet?]

/-- Generic: a fold that only ever adds is the base plus the sum of the
per-element increments. -/
theorem foldl_add_sum (f : α → Nat) (l : List α) (base : Nat) :
    l.foldl (fun s a => s + f a) base = base + (l.map f).sum := by
  induction l generalizing base with
  | nil => simp
  | cons a rest ih => simp [ih, Nat.add_assoc]

/-! ### Characterisation of the CJK search index -/

theorem mem_zhLookup_zIdxAdd (m : IdxZh) (k id tok x : Str) :
    x ∈ zhLookup (zIdxAdd m k id) tok ↔ x ∈ zhLookup m tok ∨ (tok = k ∧ x = id) := by
  by_cases h : k = tok
  · subst h
    unfold zIdxAdd zhLookup
    rw [alistGet?_set, if_pos rfl, Option.getD_some]
    by_cases hid : id ∈ (alistGet? m k).getD []
    · rw [if_pos hid]
      constructor
      · exact fun hx => Or.inl hx
      · rintro (hx | ⟨-, rfl⟩)
        · exact hx
        · exact hid
    · rw [if_neg hid, List.mem_append, List.mem_singleton]
      constructor
      · rintro (hx | rfl)
        · exact Or.inl hx
        · exact Or.inr ⟨rfl, rfl⟩
      · rintro (hx | ⟨-, rfl⟩)
        · exact Or.inl hx
        · exact Or.inr rfl
  · have h' : tok ≠ k := fun hh => h hh.symm
    unfold zIdxAdd zhLookup
    rw [alistGet?_set, if_neg h]
    simp [h']

theorem mem_zhLookup_foldToks (ts : List Str) (id : Str) (m : IdxZh) (tok x : Str) :
    x ∈ zhLookup (ts.foldl (fun m kw => zIdxAdd m kw id) m) tok ↔
      x ∈ zhLookup m tok ∨ (tok ∈ ts ∧ x = id) := by
  induction ts generalizing m with
  | nil => simp
  | cons t rest ih =>
    simp only [List.foldl_cons]
    rw [ih, mem_zhLookup_zIdxAdd]
    simp only [List.mem_cons]
    constructor
    · rintro ((hx | ⟨rfl, rfl⟩) | ⟨ht, rfl⟩)
      · exact Or.inl hx
      · exact Or.inr ⟨Or.inl rfl, rfl⟩
      · exact Or.inr ⟨Or.inr ht, rfl⟩
    · rintro (hx | ⟨(rfl | ht), rfl⟩)
      · exact Or.inl (Or.inl hx)
      · exact Or.inl (Or.inr ⟨rfl, rfl⟩)
      · exact Or.inr ⟨ht, rfl⟩

theorem mem_zhLookup_addToIndex (text : Str) (id : Str) (m : IdxZh) (tok x : Str) :
    x ∈ zhLookup (addToIndexZh m text id) tok ↔
      x ∈ zhLookup m tok ∨ (tok ∈ tokenizeZh text ∧ x = id) :=
  mem_zhLookup_foldToks (tokenizeZh text) id m tok x

theorem mem_zhLookup_foldTexts (texts : List Str) (id : Str) (m : IdxZh) (tok x : Str) :
    x ∈ zhLookup (texts.foldl (fun m t => addToIndexZh m t id) m) tok ↔
      x ∈ zhLookup m tok ∨ ((∃ t ∈ texts, tok ∈ tokenizeZh t) ∧ x = id) := by
  induction texts generalizing m with
  | nil => simp
  | cons t rest ih =>
    simp only [List.foldl_cons]
    rw [ih, mem_zhLookup_addToIndex]
    simp only [List.mem_cons]
    constructor
    · rintro ((hx | ⟨ht, rfl⟩) | ⟨⟨u, hu, htu⟩, rfl⟩)
      · exact Or.inl hx
      · exact Or.inr ⟨⟨t, Or.inl rfl, ht⟩, rfl⟩
      · exact Or.inr ⟨⟨u, Or.inr hu, htu⟩, rfl⟩
    · rintro (hx | ⟨⟨u, (rfl | hu), htu⟩, rfl⟩)
      · exact Or.inl (Or.inl hx)
      · exact Or.inl (Or.inr ⟨htu, rfl⟩)
      · exact Or.inr ⟨⟨u, hu, htu⟩, rfl⟩

theorem mem_zhLookup_build (faq : List FAQEntry) (tok x : Str) :
    x ∈ zhLookup (buildSearchIndexZh faq) tok ↔
      ∃ e ∈ faq, e.id = x ∧
        (tok ∈ tokenizeZh e.question ∨
         (∃ kw ∈ e.keywords, tok ∈ tokenizeZh kw) ∨
         (∃ t ∈ extractKeywordsZh e.answer, tok ∈ tokenizeZh t)) := by
  have key : ∀ m : IdxZh,
      x ∈ zhLookup (faq.foldl (fun m item =>
        let m1 := addToIndexZh m item.question item.id
        let m2 := item.keywords.foldl (fun m kw => addToIndexZh m kw item.id) m1
        (extractKeywordsZh item.answer).foldl (fun m kw => addToIndexZh m kw item.id) m2) m) tok ↔
      x ∈ zhLookup m tok ∨ ∃ e ∈ faq, e.id = x ∧
        (tok ∈ tokenizeZh e.question ∨
         (∃ kw ∈ e.keywords, tok ∈ tokenizeZh kw) ∨
         (∃ t ∈ extractKeywordsZh e.answer, tok ∈ tokenizeZh t)) := by
    induction faq with
    | nil => simp
    | cons e rest ih =>
      intro m
      simp only [List.foldl_cons]
      rw [ih, mem_zhLookup_foldTexts, mem_zhLookup_foldTexts, mem_zhLookup_addToIndex]
      simp only [List.mem_cons]
      constructor
      · rintro ((((hx | ⟨hq, rfl⟩) | ⟨⟨kw, hkw, htk⟩, rfl⟩) | ⟨⟨t, ht, htt⟩, rfl⟩) |
          ⟨f, hf, hid, hc⟩)
        · exact Or.inl hx
        · exact Or.inr ⟨e, Or.inl rfl, rfl, Or.inl hq⟩
        · exact Or.inr ⟨e, Or.inl rfl, rfl, Or.inr (Or.inl ⟨kw, hkw, htk⟩)⟩
        · exact Or.inr ⟨e, Or.inl rfl, rfl, Or.inr (Or.inr ⟨t, ht, htt⟩)⟩
        · exact Or.inr ⟨f, Or.inr hf, hid, hc⟩
      · rintro (hx | ⟨f, hf, hid, hc⟩)
        · exact Or.inl (Or.inl (Or.inl (Or.inl hx)))
        · rcases hf with rfl | hf
          · rcases hc with hq | ⟨kw, hkw, htk⟩ | ⟨t, ht, htt⟩
            · exact Or.inl (Or.inl (Or.inl (Or.inr ⟨hq, hid.symm⟩)))
            · exact Or.inl (Or.inl (Or.inr ⟨⟨kw, hkw, htk⟩, hid.symm⟩))
            · exact Or.inl (Or.inr ⟨⟨t, ht, htt⟩, hid.symm⟩)
          · exact Or.inr ⟨f, hf, hid, hc⟩
  unfold buildSearchIndexZh
  rw [key]
  simp [zhLookup, alistGet?]

/-- The per-token increment of the CJK scoring loop, named for use in the
statements below (its body is the literal loop body). -/
def zhTokenContrib (idx : IdxZh) (item : FAQEntry) (kw : Str) : Nat :=
  (match alistGet? idx kw with
    | some ids => if item.id ∈ ids then 5 else 0
    | none => 0) +
   ((if strIncludes (lowerStr item.question) kw then 3 else 0) +
    (if strIncludes (lowerStr item.answer) kw then 1 else 0))

theorem scoreItemZh_eq_bonus_add_sum (idx : IdxZh) (q : Str) (qToks : List Str)
    (item : FAQEntry) :
    scoreItemZh idx q qToks item =
      (if strIncludes (lowerStr item.question) (lowerStr q) then 10 else 0) +
        (qToks.map (zhTokenContrib idx item)).sum := by
  unfold scoreItemZh
  exact foldl_add_sum (zhTokenContrib idx item) qToks _

/-! ### The degraded empty-index state -/

theorem scoreTokens_nil_index (toks : List Str) : scoreTokens [] toks = [] := by
  unfold scoreTokens
  induction toks with
  | nil => rfl
  | cons t rest ih =>
    rw [List.foldl_cons]
    exact ih

theorem searchFAQEn_initFail (q : Str) (limit : Nat) :
    searchFAQEn (initServiceEn none) q limit = [] := by
  by_cases hq : q = []
  · simp [searchFAQEn, hq]
  · simp [searchFAQEn, hq, initServiceEn, loadKnowledgeBaseEn, scoreTokens_nil_index]

/-! ### Concrete fixtures (the scenario of §8 of the spec, and small
knowledge bases exercising individual rules) -/

def eHours : FAQEntry :=
  { id := "hours".toList, question := "clinic hours".toList,
    answer := "We are open nine to five".toList,
    keywords := ["hours".toList, "open".toList],
    category := "info".toList, priority := 1 }

def eAddr : FAQEntry :=
  { id := "addr".toList, question := "clinic address".toList,
    answer := "Main street one".toList,
    keywords := ["address".toList, "location".toList],
    category := "info".toList, priority := 1 }

def qrInfo : QuickReply :=
  { id := "qr1".toList, title := "Opening hours".toList,
    payload := "HOURS".toList, category := "info".toList }

def kbTest : KnowledgeBase :=
  { faq := [eHours, eAddr], categories := [], quickReplies := [qrInfo] }

/-- The service after a successful initial load of `kbTest`. -/
def stTest : StateEn := initServiceEn (some kbTest)

/-- The top result for the query `hours` against `kbTest`. -/
def rHours : ResultEn := { item := eHours, score := 25, idx := 0 }

/-- Two CJK entries with identical scores for the query `ab` but with the
larger `priority` value first in the FAQ list. -/
def eTie1 : FAQEntry :=
  { id := "a".toList, question := "ab".toList, answer := "zz".toList,
    keywords := [], category := "c".toList, priority := 2 }

def eTie2 : FAQEntry :=
  { id := "b".toList, question := "ab".toList, answer := "zz".toList,
    keywords := [], category := "c".toList, priority := 1 }

def kbTieZh : KnowledgeBase := { faq := [eTie1, eTie2], categories := [], quickReplies := [] }

def stTieZh : StateZh := { faqData := kbTieZh, searchIndex := buildSearchIndexZh kbTieZh.faq }

/-- An entry whose keyword `ab` is also one of its question tokens, so the
index holds two postings for the token `ab`. -/
def eDouble : FAQEntry :=
  { id := "x".toList, question := "ab cd".toList, answer := "zz".toList,
    keywords := ["ab".toList], category := "c".toList, priority := 1 }

/-- A knowledge base whose only entry matches the query `ab` via a keyword
and whose question also tokenizes to `ab`; used for the stale-index state. -/
def eStale : FAQEntry :=
  { id := "s".toList, question := "ab".toList, answer := "zz".toList,
    keywords := ["ab".toList], category := "c".toList, priority := 1 }

def kbStale : KnowledgeBase := { faq := [eStale], categories := [], quickReplies := [] }

/-- A successful load of `kbStale` followed by a failed reload: `faqData`
is reset to the empty knowledge base but the index still holds the
generation-1 postings. -/
def stStale : StateEn := reloadEn (initServiceEn (some kbStale)) none

/-- An entry matched only via question tokens, scoring 1 for the query
`cd` — below the default threshold 3. -/
def eSub : FAQEntry :=
  { id := "z".toList, question := "ab cd".toList, answer := "zz".toList,
    keywords := [], category := "c".toList, priority := 1 }

def stSub : StateEn := initServiceEn (some { faq := [eSub], categories := [], quickReplies := [] })

/-- A CJK entry reachable only through the keyword `kw1`, scoring 5 for the
query `kw1 zz` — below the hard-coded threshold 8. -/
def eZhLow : FAQEntry :=
  { id := "w".toList, question := "qa qb".toList, answer := "xx".toList,
    keywords := ["kw1".toList], category := "c".toList, priority := 1 }

def stZhLow : StateZh :=
  { faqData := { faq := [eZhLow], categories := [], quickReplies := [] },
    searchIndex := buildSearchIndexZh [eZhLow] }

/-- A CJK entry with a multi-word keyword, which the index builder splits. -/
def eKwSplit : FAQEntry :=
  { id := "x".toList, question := "qq".toList, answer := "zz".toList,
    keywords := ["ab cd".toList], category := "c".toList, priority := 1 }

/-- A CJK entry whose question `ab` is a proper substring of the query
`abc`. -/
def eQsub : FAQEntry :=
  { id := "y".toList, question := "ab".toList, answer := "zz".toList,
    keywords := [], category := "c".toList, priority := 1 }

/-! ### The claims -/

/-- C1: for every query whose top-ranked candidate has score `s` and every
threshold `t`, `getSmartAnswer` returns the `Found` variant (carrying that
entry's answer, category and `s` as confidence) if and only if at least one
candidate exists and `s ≥ t`; in particular the comparison is inclusive, so
`s = t` decides `Found`.  Stated for the English variant, which takes the
threshold as a parameter, together with the same inclusive-threshold
classification for the CJK variant at its hard-coded threshold 8. -/
theorem c1_found_iff_top_at_least_threshold (s : StateEn) (zs : StateZh) (q : Str) (t : Nat) :
    ((getSmartAnswerEn s q t).isFound = true ↔
      ∃ r, (searchFAQEn s q 3).head? = some r ∧ t ≤ r.score) ∧
    (∀ r rest, searchFAQEn s q 3 = r :: rest → t ≤ r.score →
      getSmartAnswerEn s q t =
        SmartAnswerEn.found r.item.answer r.item.question r.item.category r.score
          ((getQuickRepliesEn s.faqData r.item.category).take 3)) ∧
    ((getSmartAnswerZh zs q).isDirect = true ↔
      ∃ r, (searchFAQZh zs q 3).head? = some r ∧ 8 ≤ r.score) := by
  refine ⟨?_, ?_, ?_⟩
  · unfold getSmartAnswerEn
    cases h : searchFAQEn s q 3 with
    | nil => simp [SmartAnswerEn.isFound]
    | cons r rest =>
      by_cases ht : t ≤ r.score
      · simp [ht, SmartAnswerEn.isFound]
      · simp [ht, SmartAnswerEn.isFound]
  · intro r rest h ht
    unfold getSmartAnswerEn
    rw [h]
    simp [ht]
  · unfold getSmartAnswerZh
    cases h : searchFAQZh zs q 3 with
    | nil => simp [SmartAnswerZh.isDirect]
    | cons r rest =>
      by_cases ht : 8 ≤ r.score
      · simp [ht, SmartAnswerZh.isDirect]
      · simp [ht, SmartAnswerZh.isDirect]

/-- Witness for C1: on the §8 scenario knowledge base, the query `hours`
with threshold 3 yields `Found` carrying the hours entry's answer, its
category and the top score 25 as confidence. -/
theorem c1_found_iff_top_at_least_threshold_witness :
    getSmartAnswerEn stTest ("hours".toList) 3 =
      SmartAnswerEn.found rHours.item.answer rHours.item.question rHours.item.category
        rHours.score ((getQuickRepliesEn stTest.faqData rHours.item.category).take 3) :=
  (c1_found_iff_top_at_least_threshold stTest stTieZh ("hours".toList) 3).2.1 rHours []
    (by decide) (by decide)

/-- C2 counterexample: for the English variant, a query with one candidate
of score 1 — non-zero but below the threshold 3 — makes `getSmartAnswer`
return the `NotFound` shape (`found: false`, default suggestions), not a
disambiguation list. -/
theorem c2_counterexample :
    searchFAQEn stSub ("cd".toList) 3 = [{ item := eSub, score := 1, idx := 0 }] ∧
    (1 : Nat) < 3 ∧
    getSmartAnswerEn stSub ("cd".toList) 3 = SmartAnswerEn.notFound [] := by
  decide

/-- C2 amended: the disambiguation behaviour belongs to the CJK variant
only — there a non-empty sub-threshold result yields the options variant
carrying the candidates, the numbered list rendered from them and the
unfiltered suggestion set; the English variant returns `NotFound` with the
default suggestion set in the same situation. -/
theorem c2_amended_subthreshold_options (s : StateEn) (zs : StateZh) (q : Str) (t : Nat) :
    (∀ r rest, searchFAQZh zs q 3 = r :: rest → r.score < 8 →
      getSmartAnswerZh zs q =
        SmartAnswerZh.options (renderOptionsZh (r :: rest)) (r :: rest)
          (getQuickRepliesZh zs.faqData [])) ∧
    (∀ r rest, searchFAQEn s q 3 = r :: rest → r.score < t →
      getSmartAnswerEn s q t = SmartAnswerEn.notFound (getDefaultQuickRepliesEn s.faqData)) := by
  constructor
  · intro r rest h hlt
    unfold getSmartAnswerZh
    rw [h]
    simp [Nat.not_le.mpr hlt]
  · intro r rest h hlt
    unfold getSmartAnswerEn
    rw [h]
    simp [Nat.not_le.mpr hlt]

/-- Witness for C2 amended: the CJK query `kw1 zz` scores 5 against its
only candidate, and `getSmartAnswer` returns the numbered-options shape. -/
theorem c2_amended_subthreshold_options_witness :
    getSmartAnswerZh stZhLow ("kw1 zz".toList) =
      SmartAnswerZh.options (renderOptionsZh [{ item := some eZhLow, score := 5 }])
        [{ item := some eZhLow, score := 5 }] (getQuickRepliesZh stZhLow.faqData []) :=
  (c2_amended_subthreshold_options stSub stZhLow ("kw1 zz".toList) 3).1
    { item := some eZhLow, score := 5 } [] (by decide) (by decide)

/-- C3 counterexample: for the entry whose keyword `ab` is also a question
token, the claim's formula gives the query `ab` a total of 1 + 2 = 3, but
the engine accumulates 6: the token has two postings (one from the keyword,
one from the question token), and the contribution is added per posting. -/
theorem c3_counterexample :
    ((tokenizeEn ("ab".toList)).map (fun tok =>
      (if eDouble.keywords.any (fun k => strIncludes (lowerStr k) tok) then 3 else 1) +
        (if 4 ≤ tok.length then 1 else 0))).sum = 3 ∧
    smGet (scoreTokens (buildFAQIndexEn [eDouble]) (tokenizeEn ("ab".toList))) 0 = 6 := by
  decide

/-- Counting occurrences of `a` satisfying `p` in a duplicate-free list is
the membership indicator. -/
theorem countP_and_eq_of_nodup [DecidableEq α] (l : List α) (hl : l.Nodup) (p : α → Prop)
    [DecidablePred p] (a : α) :
    l.countP (fun x => p x ∧ x = a) = if a ∈ l ∧ p a then 1 else 0 := by
  induction l with
  | nil => simp
  | cons b rest ih =>
    rw [List.countP_cons]
    rw [List.nodup_cons] at hl
    obtain ⟨hb, hrest⟩ := hl
    by_cases hba : b = a
    · subst hba
      have hzero : rest.countP (fun x => decide (p x ∧ x = b)) = 0 := by
        apply List.countP_eq_zero.2
        intro x hx
        simp only [decide_eq_true_eq, not_and]
        intro _ hxb
        exact absurd (hxb ▸ hx) hb
      rw [hzero]
      by_cases hp : p b <;> simp [hp]
    · have hne : ¬(p b ∧ b = a) := fun hh => hba hh.2
      have hab : ¬a = b := fun hh => hba hh.symm
      rw [ih hrest]
      by_cases ha : a ∈ rest <;> by_cases hpa : p a <;>
        simp [ha, hpa, hne, hab, List.mem_cons]

/-- The EN tokenizer's output never contains duplicates. -/
theorem tokenizeEn_nodup (text : Str) : (tokenizeEn text).Nodup :=
  nodup_dedupFirst _

/-- C3 amended: the per-token, per-posting contribution is base 1, raised
to 3 when the token occurs as a substring of one of the entry's lowercased
keywords, plus 1 when the token length is at least 4 — and it is added once
per posting of the entry under that token (one posting per keyword whose
normal form equals the token, plus one if the token is also one of the
entry's question tokens of length ≥ 2), so an entry indexed under the same
token through both routes receives the contribution twice. -/
theorem c3_amended_per_posting_scoring (faq : List FAQEntry) (q : Str) (i : Nat) (e : FAQEntry)
    (h : faq.get? i = some e) :
    smGet (scoreTokens (buildFAQIndexEn faq) (tokenizeEn q)) i =
      ((tokenizeEn q).map (fun tok =>
        (e.keywords.countP (fun kw => normKw kw = tok) +
          (if tok ∈ tokenizeEn e.question ∧ 2 ≤ tok.length then 1 else 0)) *
        ((if e.keywords.any (fun k => strIncludes (lowerStr k) tok) then 3 else 1) +
          (if 4 ≤ tok.length then 1 else 0)))).sum := by
  rw [smGet_scoreTokens]
  congr 1
  apply List.map_congr_left
  intro tok _
  rw [enLookup_build, postingsFrom_filter_zero faq tok i e h]
  unfold postingsOfEntry
  rw [List.map_append, List.sum_append, List.map_map, List.map_map]
  simp only [Function.comp_def]
  rw [List.map_const', List.map_const', List.sum_replicate, List.sum_replicate,
    smul_eq_mul, smul_eq_mul, ← List.countP_eq_length_filter, ← List.countP_eq_length_filter,
    countP_and_eq_of_nodup (tokenizeEn e.question) (tokenizeEn_nodup e.question)
      (fun t => 2 ≤ t.length) tok,
    ← Nat.add_mul]
  simp [enTokenScore]

/-- Witness for C3 amended: the score of the hours entry for the query
`hours` equals the per-posting formula's value. -/
theorem c3_amended_per_posting_scoring_witness :
    smGet (scoreTokens (buildFAQIndexEn kbTest.faq) (tokenizeEn ("hours".toList))) 0 =
      ((tokenizeEn ("hours".toList)).map (fun tok =>
        (eHours.keywords.countP (fun kw => normKw kw = tok) +
          (if tok ∈ tokenizeEn eHours.question ∧ 2 ≤ tok.length then 1 else 0)) *
        ((if eHours.keywords.any (fun k => strIncludes (lowerStr k) tok) then 3 else 1) +
          (if 4 ≤ tok.length then 1 else 0)))).sum :=
  c3_amended_per_posting_scoring kbTest.faq ("hours".toList) 0 eHours (by decide)

/-- C4 counterexample: the question `ab` is a proper substring of the query
`abc` — the claimed "vice versa" direction — yet the CJK scorer gives the
entry total score 0 for that query: no ≈10 bonus is added when only the
question-inside-query containment holds. -/
theorem c4_counterexample :
    strIncludes (lowerStr ("abc".toList)) (lowerStr ("ab".toList)) = true ∧
    scoreItemZh (buildSearchIndexZh [eQsub]) ("abc".toList) (tokenizeZh ("abc".toList)) eQsub
      = 0 := by
  decide

/-- C4 amended: the CJK ranker's exact-match bonus of 10 is added exactly
when the lowercased question contains the lowercased query as a substring
(query inside question); the entry's score decomposes as that bonus plus
the per-token overlap contributions, so the reverse containment alone adds
nothing. -/
theorem c4_amended_bonus_query_in_question (idx : IdxZh) (q : Str) (item : FAQEntry) :
    scoreItemZh idx q (tokenizeZh q) item =
      (if strIncludes (lowerStr item.question) (lowerStr q) then 10 else 0) +
        ((tokenizeZh q).map (zhTokenContrib idx item)).sum :=
  scoreItemZh_eq_bonus_add_sum idx q (tokenizeZh q) item

/-- C5 counterexample: two CJK entries with equal score 18 for the query
`ab` come back in FAQ order — the priority-2 entry before the priority-1
entry — so the CJK variant does not break score ties by ascending
priority. -/
theorem c5_counterexample :
    searchFAQZh stTieZh ("ab".toList) 5 =
      [{ item := some eTie1, score := 18 }, { item := some eTie2, score := 18 }] ∧
    eTie1.priority = 2 ∧ eTie2.priority = 1 := by
  decide

/-- C5 amended: the English result list is sorted descending by score with
equal scores ordered by ascending priority; the CJK result list is sorted
descending by score only, equal scores keeping their knowledge-base
insertion order. -/
theorem c5_amended_sort_order (s : StateEn) (zs : StateZh) (q : Str) (limit : Nat) :
    (searchFAQEn s q limit).Pairwise (fun a b =>
      b.score < a.score ∨ (a.score = b.score ∧ a.item.priority ≤ b.item.priority)) ∧
    (searchFAQZh zs q limit).Pairwise (fun a b => b.score ≤ a.score) := by
  constructor
  · unfold searchFAQEn
    by_cases hq : q = []
    · simp [hq]
    · rw [if_neg hq]
      have hs := List.sorted_insertionSort enLe
        ((scoreTokens s.faqIndex (tokenizeEn q)).map (fun iv =>
          ({ item := s.faqData.faq.getD iv.1 emptyEntry, score := iv.2, idx := iv.1 } : ResultEn)))
      have ht := List.Pairwise.sublist (List.take_sublist limit _) hs
      exact ht.imp (fun hab => hab)
  · unfold searchFAQZh
    by_cases hq : q = []
    · simp [hq]
    · rw [if_neg hq]
      have hs := List.sorted_insertionSort zhLe
        ((zs.faqData.faq.foldl (fun sc item =>
          let sc' := scoreItemZh zs.searchIndex q (tokenizeZh q) item
          if 0 < sc' then alistSet sc item.id sc' else sc) []))
      have ht := List.Pairwise.sublist (List.take_sublist limit _) hs
      exact List.Pairwise.map _ (fun a b hab => hab) ht

/-- Every posting found under any token of the freshly built index resolves
to the entry stored at its recorded position. -/
theorem get?_of_mem_postingsFrom {faq : List FAQEntry} {j : Nat} {tok : Str} {p : PostingEn}
    (h : p ∈ postingsFrom j faq tok) : faq.get? (p.idx - j) = some p.item := by
  induction faq generalizing j with
  | nil => simp [postingsFrom] at h
  | cons e rest ih =>
    rcases List.mem_append.1 h with h' | h'
    · rw [eq_of_mem_postingsOfEntry h']
      simp
    · have h1 := ih h'
      have h2 := le_idx_of_mem_postingsFrom h'
      have h3 : p.idx - j = (p.idx - (j + 1)) + 1 := by omega
      rw [h3, List.get?_cons_succ]
      exact h1

/-- C6 counterexample: after a successful load of `kbStale` and a failed
reload, the current FAQ list is empty, yet the index still maps the token
`ab` to two postings of the evicted generation, and a search still
surfaces a non-empty (stale) result. -/
theorem c6_counterexample :
    stStale.faqData.faq = [] ∧
    enLookup stStale.faqIndex ("ab".toList) =
      [{ item := eStale, idx := 0 }, { item := eStale, idx := 0 }] ∧
    searchFAQEn stStale ("ab".toList) 10 = [{ item := emptyEntry, score := 6, idx := 0 }] := by
  decide

/-- C6 amended: after every successful load or reload the index is derived
entirely from the new generation — every posting stored under any token is
the entry at its recorded position of the newly loaded FAQ list.  A failed
(re)load, however, resets `faqData` to the empty knowledge base while
leaving the index untouched, so the invariant does not survive a failed
reload (see the counterexample). -/
theorem c6_amended_fresh_index_after_successful_load (s : StateEn) (kb : KnowledgeBase)
    (tok : Str) (p : PostingEn)
    (h : p ∈ enLookup (loadKnowledgeBaseEn s (some kb)).faqIndex tok) :
    kb.faq.get? p.idx = some p.item := by
  unfold loadKnowledgeBaseEn at h
  rw [enLookup_build] at h
  have := get?_of_mem_postingsFrom h
  simpa using this

/-- Witness for C6 amended: the posting stored for the token `ab` right
after a successful load of `kbStale` is the loaded entry at position 0. -/
theorem c6_amended_fresh_index_after_successful_load_witness :
    kbStale.faq.get? ({ item := eStale, idx := 0 } : PostingEn).idx =
      some ({ item := eStale, idx := 0 } : PostingEn).item :=
  c6_amended_fresh_index_after_successful_load (initServiceEn (some kbStale)) kbStale
    ("ab".toList) { item := eStale, idx := 0 } (by decide)

/-- C7 counterexample: the CJK index builder re-tokenizes keywords — the
multi-word keyword `ab cd` is not indexed as a whole term (the index has no
such key) and the fragments `ab` and `cd` are indexed instead. -/
theorem c7_counterexample :
    zhLookup (buildSearchIndexZh [eKwSplit]) ("ab cd".toList) = [] ∧
    zhLookup (buildSearchIndexZh [eKwSplit]) ("ab".toList) = ["x".toList] ∧
    zhLookup (buildSearchIndexZh [eKwSplit]) ("cd".toList) = ["x".toList] := by
  decide

/-- C7 amended: in the English variant an entry is found under a token
exactly when some keyword equals the token after lowercase-and-trim
normalisation (keywords are indexed whole) or the token is one of the
question's tokens of length at least 2 (the answer contributes nothing);
in the CJK variant an id is found under a token exactly when the token is
produced by tokenizing the question, one of the keywords, or one of the
allow-list terms extracted from the answer — keywords and answer terms go
through the tokenizer there. -/
theorem c7_amended_what_gets_indexed (faq : List FAQEntry) (tok x : Str) (i : Nat) (e : FAQEntry)
    (h : faq.get? i = some e) :
    (((⟨e, i⟩ : PostingEn) ∈ enLookup (buildFAQIndexEn faq) tok) ↔
      ((∃ kw ∈ e.keywords, normKw kw = tok) ∨ (tok ∈ tokenizeEn e.question ∧ 2 ≤ tok.length))) ∧
    (x ∈ zhLookup (buildSearchIndexZh faq) tok ↔
      ∃ f ∈ faq, f.id = x ∧
        (tok ∈ tokenizeZh f.question ∨ (∃ kw ∈ f.keywords, tok ∈ tokenizeZh kw) ∨
         (∃ u ∈ extractKeywordsZh f.answer, tok ∈ tokenizeZh u))) := by
  constructor
  · rw [enLookup_build]
    constructor
    · intro hmem
      have hmem' : (⟨e, i⟩ : PostingEn) ∈
          (postingsFrom 0 faq tok).filter (fun p => p.idx = i) :=
        List.mem_filter.2 ⟨hmem, by simp⟩
      rw [postingsFrom_filter_zero faq tok i e h] at hmem'
      unfold postingsOfEntry at hmem'
      rcases List.mem_append.1 hmem' with h' | h'
      · obtain ⟨kw, hkw, -⟩ := List.mem_map.1 h'
        have hkw' := List.mem_filter.1 hkw
        exact Or.inl ⟨kw, hkw'.1, by simpa using hkw'.2⟩
      · obtain ⟨t, ht, -⟩ := List.mem_map.1 h'
        have ht' := List.mem_filter.1 ht
        obtain ⟨hlen, heq⟩ : 2 ≤ t.length ∧ t = tok := by simpa using ht'.2
        subst heq
        exact Or.inr ⟨ht'.1, hlen⟩
    · intro hc
      have hmem : (⟨e, i⟩ : PostingEn) ∈ postingsOfEntry i e tok := by
        unfold postingsOfEntry
        rcases hc with ⟨kw, hkw, hn⟩ | ⟨hq, hlen⟩
        · exact List.mem_append_left _
            (List.mem_map.2 ⟨kw, List.mem_filter.2 ⟨hkw, by simpa using hn⟩, rfl⟩)
        · exact List.mem_append_right _
            (List.mem_map.2 ⟨tok, List.mem_filter.2 ⟨hq, by simp [hlen]⟩, rfl⟩)
      rw [← postingsFrom_filter_zero faq tok i e h] at hmem
      exact (List.mem_filter.1 hmem).1
  · exact mem_zhLookup_build faq tok x

/-- Witness for C7 amended: the hours entry is reachable in the index under
its whole keyword `open`. -/
theorem c7_amended_what_gets_indexed_witness :
    (⟨eHours, 0⟩ : PostingEn) ∈ enLookup (buildFAQIndexEn kbTest.faq) ("open".toList) :=
  ((c7_amended_what_gets_indexed kbTest.faq ("open".toList) ("hours".toList) 0 eHours
      (by decide)).1).mpr
    (Or.inl ⟨"open".toList, by decide, by decide⟩)

theorem mem_tokenizeEn_iff (text : Str) (tok : Str) :
    tok ∈ tokenizeEn text ↔ ∃ w ∈ enWords text,
      tok ∈ (if 2 ≤ w.length then w :: (if 4 < w.length then subsOf w else []) else []) := by
  unfold tokenizeEn
  rw [mem_dedupFirst, List.mem_flatMap]

theorem three_le_length_of_mem_subsOf {w tok : Str} (h : tok ∈ subsOf w) : 3 ≤ tok.length := by
  unfold subsOf at h
  obtain ⟨i, -, h2⟩ := List.mem_flatMap.1 h
  obtain ⟨j, -, hg⟩ := List.mem_filterMap.1 h2
  dsimp only at hg
  by_cases hc : 3 ≤ ((w.drop i).take j).length
  · rw [if_pos hc] at hg
    injection hg with hh
    subst hh
    exact hc
  · rw [if_neg hc] at hg
    exact absurd hg (by simp)

theorem mem_subsOf_of_bounds (w : Str) (hw : 4 < w.length) (i L : Nat) (h3 : 3 ≤ L)
    (h6 : L ≤ 6) (hle : i + L ≤ w.length) : (w.drop i).take L ∈ subsOf w := by
  unfold subsOf
  apply List.mem_flatMap.2
  refine ⟨i, ?_, ?_⟩
  · rw [List.mem_range]
    omega
  · apply List.mem_filterMap.2
    refine ⟨L, ?_, ?_⟩
    · rw [List.mem_range'_1]
      refine ⟨h3, ?_⟩
      rcases Nat.le_total 6 (w.length - i) with hm | hm
      · rw [Nat.min_eq_left hm]; omega
      · rw [Nat.min_eq_right hm]; omega
    · have hlen : ((w.drop i).take L).length = L := by
        rw [List.length_take, List.length_drop]
        omega
      have hguard : 3 ≤ ((w.drop i).take L).length := by rw [hlen]; exact h3
      dsimp only
      rw [if_pos hguard]

/-- C8: every token the English tokenizer outputs has length at least 2
(shorter pieces are discarded); every split word of length at least 2 is
itself in the output; and for every split word longer than 4 characters,
every contiguous substring of it of length 3 to 6 is also in the output —
the output is a superset of the exact words plus those fragments. -/
theorem c8_latin_tokenizer_fragments (text : Str) :
    (∀ tok ∈ tokenizeEn text, 2 ≤ tok.length) ∧
    (∀ w ∈ enWords text, 2 ≤ w.length → w ∈ tokenizeEn text) ∧
    (∀ w ∈ enWords text, 4 < w.length →
      ∀ i L, 3 ≤ L → L ≤ 6 → i + L ≤ w.length → (w.drop i).take L ∈ tokenizeEn text) := by
  refine ⟨?_, ?_, ?_⟩
  · intro tok htok
    obtain ⟨w, hw, hmem⟩ := (mem_tokenizeEn_iff text tok).1 htok
    by_cases h2 : 2 ≤ w.length
    · rw [if_pos h2] at hmem
      rcases List.mem_cons.1 hmem with rfl | hmem'
      · exact h2
      · by_cases h4 : 4 < w.length
        · rw [if_pos h4] at hmem'
          have := three_le_length_of_mem_subsOf hmem'
          omega
        · rw [if_neg h4] at hmem'
          exact absurd hmem' (List.not_mem_nil _)
    · rw [if_neg h2] at hmem
      exact absurd hmem (List.not_mem_nil _)
  · intro w hw h2
    exact (mem_tokenizeEn_iff text w).2
      ⟨w, hw, by rw [if_pos h2]; exact List.mem_cons_self _ _⟩
  · intro w hw h4 i L h3 h6 hle
    refine (mem_tokenizeEn_iff text _).2 ⟨w, hw, ?_⟩
    have h2 : 2 ≤ w.length := by omega
    rw [if_pos h2, if_pos h4]
    exact List.mem_cons_of_mem _ (mem_subsOf_of_bounds w h4 i L h3 h6 hle)

/-- Witness for C8: `ello`, a length-4 substring of the word `hello`, is
among the tokens of `Hello, world!`. -/
theorem c8_latin_tokenizer_fragments_witness :
    ("ello".toList) ∈ tokenizeEn ("Hello, world!".toList) :=
  (c8_latin_tokenizer_fragments ("Hello, world!".toList)).2.2 ("hello".toList) (by decide)
    (by decide) 1 4 (by decide) (by decide) (by decide)

/-- C9 counterexample: the CJK tokenizer does not deduplicate — `ab ab`
tokenizes to two copies of `ab` — and the repeated token contributes twice:
the per-occurrence contribution is 8, and the entry's score for the
repeated query is 16. -/
theorem c9_counterexample :
    tokenizeZh ("ab ab".toList) = ["ab".toList, "ab".toList] ∧
    ¬ (tokenizeZh ("ab ab".toList)).Nodup ∧
    zhTokenContrib (buildSearchIndexZh [eTie1]) eTie1 ("ab".toList) = 8 ∧
    scoreItemZh (buildSearchIndexZh [eTie1]) ("ab ab".toList) (tokenizeZh ("ab ab".toList)) eTie1
      = 16 := by
  decide

/-- C9 amended: the English tokenizer's output is deduplicated (it never
contains a token twice, so a repeated query token is scored once); the CJK
tokenizer's output is not deduplicated, and a repeated token contributes
once per occurrence there (see the counterexample). -/
theorem c9_amended_en_output_nodup (text : Str) : (tokenizeEn text).Nodup :=
  tokenizeEn_nodup text

/-- C10 counterexample: when the failing load is a reload after a
successful one, the service does degrade to the empty knowledge base, but
search against the surviving index is non-empty and `getSmartAnswer`
returns the found shape (with all entry fields absent), not `NotFound`. -/
theorem c10_counterexample :
    stStale.faqData = emptyKB ∧
    searchFAQEn stStale ("ab".toList) 10 ≠ [] ∧
    getSmartAnswerEn stStale ("ab".toList) 3 = SmartAnswerEn.found [] [] [] 6 [] := by
  decide

/-- C10 amended: a load failure never throws in this model (all operations
are total) and installs the empty knowledge base; when the failure happens
on the *initial* load — so the index is still empty — every search returns
the empty list and every `getSmartAnswer` returns `NotFound` with the
default suggestions.  After a failed *reload* the stale index can still
produce results (see the counterexample). -/
theorem c10_amended_initial_load_failure_degrades (q : Str) (limit t : Nat) :
    (initServiceEn none).faqData = emptyKB ∧
    searchFAQEn (initServiceEn none) q limit = [] ∧
    getSmartAnswerEn (initServiceEn none) q t =
      SmartAnswerEn.notFound (getDefaultQuickRepliesEn emptyKB) := by
  refine ⟨rfl, searchFAQEn_initFail q limit, ?_⟩
  unfold getSmartAnswerEn
  rw [searchFAQEn_initFail]
  rfl
